import Mathlib

/-!
Verification of the agent-workflow-server core: the idempotent job-admission
guard (`src/jobs/IdempotencyGuard.ts`), the capability-selection policy
(`src/agent/skillPolicy.ts`), and the multi-turn tool-calling agent loop
(`src/agent/runAgent.ts`, which ships two variants of `runAgent`: an earlier
stub variant that throws on an unknown tool, and the OpenRouter variant that
synthesizes an error result).

Conventions of the shallow embedding:
- JavaScript `Date.now()` timestamps are `Nat` milliseconds, passed explicitly
  to every operation (`now`). `Date.now() - t` is `Nat` subtraction; for the
  comparisons the source makes (`< retryDelay`, `< cutoff`) truncated
  subtraction agrees with JS signed arithmetic.
- The process-wide `Map` job store is an association list updated in place
  (`Map.set` replaces an existing binding, else appends).
- Exceptions are `Except String`; a rejected `await` is `Except.error`.
-/

-- ===========================================
-- IdempotencyGuard (src/jobs/IdempotencyGuard.ts)
-- ===========================================

/-- `JobStatus` from IdempotencyGuard.ts: `'pending' | 'processing' | 'completed' | 'failed'`. -/
inductive JobStatus where
  | pending
  | processing
  | completed
  | failed
deriving DecidableEq, Repr

/-- `JobRecord` from IdempotencyGuard.ts. Timestamps are `Nat` ms; the opaque
`metadata` field is `Option Unit` (it is stored but never read). -/
structure JobRecord where
  id : String
  status : JobStatus
  createdAt : Nat
  updatedAt : Nat
  completedAt : Option Nat := none
  error : Option String := none
  attempts : Nat
  metadata : Option Unit := none
deriving DecidableEq, Repr

/-- `IdempotencyConfig` from IdempotencyGuard.ts (ttl, maxAttempts, retryDelay in ms). -/
structure IdempotencyConfig where
  ttl : Nat
  maxAttempts : Nat
  retryDelay : Nat
deriving DecidableEq, Repr

/-- The module-level `jobStore : Map<string, JobRecord>`, as an association list. -/
abbrev JobStore := List (String × JobRecord)

/-- `jobStore.get(id)`. -/
def storeGet : JobStore → String → Option JobRecord
  | [], _ => none
  | (k, r) :: rest, id => if k = id then some r else storeGet rest id

/-- `jobStore.set(id, r)`: replaces an existing binding in place, else appends
(JS `Map` keeps insertion order). -/
def storeSet : JobStore → String → JobRecord → JobStore
  | [], id, r => [(id, r)]
  | (k, v) :: rest, id, r =>
    if k = id then (id, r) :: rest else (k, v) :: storeSet rest id r

/-- `IdempotencyGuard.createRecord` (IdempotencyGuard.ts lines 212-238): despite
its doc comment saying "pending", it writes status `'processing'` with
`attempts = 1`; `createdAt` and `updatedAt` are both the current time.
`isDuplicate` calls it without metadata. -/
def createRecord (s : JobStore) (jobId : String) (now : Nat) : JobStore :=
  storeSet s jobId
    { id := jobId, status := .processing, createdAt := now, updatedAt := now,
      completedAt := none, error := none, attempts := 1, metadata := none }

/-- `IdempotencyGuard.markProcessing` (lines 245-258): sets status `'processing'`,
refreshes `updatedAt`, increments `attempts`; no-op if the record is absent. -/
def markProcessing (s : JobStore) (jobId : String) (now : Nat) : JobStore :=
  match storeGet s jobId with
  | none => s
  | some r =>
    storeSet s jobId { r with status := .processing, updatedAt := now, attempts := r.attempts + 1 }

/-- `IdempotencyGuard.markComplete` (lines 265-287): sets status `'completed'`,
refreshes `updatedAt`, sets `completedAt`; no-op if the record is absent. -/
def markComplete (s : JobStore) (jobId : String) (now : Nat) : JobStore :=
  match storeGet s jobId with
  | none => s
  | some r =>
    storeSet s jobId { r with status := .completed, updatedAt := now, completedAt := some now }

/-- `IdempotencyGuard.markFailed` (lines 295-309): sets status `'failed'`,
refreshes `updatedAt`, records the error message; no-op if the record is absent. -/
def markFailed (s : JobStore) (jobId : String) (now : Nat) (err : String) : JobStore :=
  match storeGet s jobId with
  | none => s
  | some r =>
    storeSet s jobId { r with status := .failed, updatedAt := now, error := some err }

/-- `IdempotencyGuard.isDuplicate` (lines 149-204). Returns the boolean the
caller sees and the updated store:
- no record: create one (status processing, attempts 1) and return false;
- completed or processing: return true, store unchanged;
- failed: true if `attempts >= maxAttempts`, true if still inside the retry
  cooldown (`Date.now() - updatedAt < retryDelay`), else `markProcessing` and
  return false;
- pending (unreachable through this class, see C10): `markProcessing`, false. -/
def isDuplicate (cfg : IdempotencyConfig) (s : JobStore) (jobId : String) (now : Nat) :
    Bool × JobStore :=
  match storeGet s jobId with
  | none => (false, createRecord s jobId now)
  | some record =>
    if record.status = .completed then (true, s)
    else if record.status = .processing then (true, s)
    else if record.status = .failed then
      if cfg.maxAttempts ≤ record.attempts then (true, s)
      else if now - record.updatedAt < cfg.retryDelay then (true, s)
      else (false, markProcessing s jobId now)
    else (false, markProcessing s jobId now)

/-- `IdempotencyGuard.cleanup` (lines 332-357): blindly evicts every record whose
`createdAt` is older than `now - ttl`, returning how many were removed. -/
def cleanup (cfg : IdempotencyConfig) (s : JobStore) (now : Nat) : Nat × JobStore :=
  let cutoff := now - cfg.ttl
  let kept := s.filter (fun p => decide (cutoff ≤ p.2.createdAt))
  (s.length - kept.length, kept)

/-- Result shape of `IdempotencyGuard.getStats` (lines 364-388). -/
structure JobStats where
  total : Nat
  pending : Nat
  processing : Nat
  completed : Nat
  failed : Nat
deriving DecidableEq, Repr

/-- One step of the `getStats` tally: `stats.total++; stats[record.status]++`. -/
def statTally (st : JobStats) (r : JobRecord) : JobStats :=
  let st := { st with total := st.total + 1 }
  match r.status with
  | .pending => { st with pending := st.pending + 1 }
  | .processing => { st with processing := st.processing + 1 }
  | .completed => { st with completed := st.completed + 1 }
  | .failed => { st with failed := st.failed + 1 }

/-- `IdempotencyGuard.getStats`: fold the tally over the store's records. -/
def getStats (s : JobStore) : JobStats :=
  s.foldl (fun st p => statTally st p.2) ⟨0, 0, 0, 0, 0⟩

/-- A call into the guard's public mutating interface, with its `Date.now()`
timestamp (the `Bool` result of `isDuplicate` and the count of `cleanup` are
dropped; only the store effect matters for invariants). -/
inductive GuardOp where
  | isDup (id : String) (t : Nat)
  | complete (id : String) (t : Nat)
  | fail (id : String) (t : Nat) (e : String)
  | sweep (t : Nat)
deriving DecidableEq, Repr

/-- Effect of one guard call on the store. -/
def applyOp (cfg : IdempotencyConfig) (s : JobStore) : GuardOp → JobStore
  | .isDup id t => (isDuplicate cfg s id t).2
  | .complete id t => markComplete s id t
  | .fail id t e => markFailed s id t e
  | .sweep t => (cleanup cfg s t).2

/-- A sequence of guard calls, applied left to right. -/
def runOps (cfg : IdempotencyConfig) (s : JobStore) (ops : List GuardOp) : JobStore :=
  ops.foldl (applyOp cfg) s

/-- Repeated `isDuplicate` calls at the given times: the list of booleans the
callers saw, and the final store. -/
def isDupSeq (cfg : IdempotencyConfig) (s : JobStore) (jobId : String) :
    List Nat → List Bool × JobStore
  | [] => ([], s)
  | t :: ts =>
    let p := isDuplicate cfg s jobId t
    let q := isDupSeq cfg p.2 jobId ts
    (p.1 :: q.1, q.2)

/-- One admission attempt followed by `markFailed` at the same timestamp. -/
def failRound (cfg : IdempotencyConfig) (jobId e : String) (s : JobStore) (t : Nat) : JobStore :=
  markFailed (isDuplicate cfg s jobId t).2 jobId t e

/-- `k` consecutive rounds of (admission, failure) for the same id, the `i`-th
round happening at time `t0 + i * d`. -/
def failRounds (cfg : IdempotencyConfig) (jobId e : String) (s : JobStore) (t0 d : Nat) :
    Nat → JobStore
  | 0 => s
  | Nat.succ k => failRound cfg jobId e (failRounds cfg jobId e s t0 d k) (t0 + k * d)

/-- The `attempts` field of the id's record, if present. -/
def attemptsOf (s : JobStore) (jobId : String) : Option Nat :=
  (storeGet s jobId).map (fun r => r.attempts)

-- ===========================================
-- Agent context (src/agent/runAgent.ts, AgentContext)
-- ===========================================

/-- `AgentContext.repository`. -/
structure Repository where
  owner : String
  name : String
  fullName : String
deriving DecidableEq, Repr

/-- `AgentContext.issue` when present. -/
structure IssueInfo where
  number : Nat
  title : String
  body : String
  labels : List String
deriving DecidableEq, Repr

/-- `AgentContext.pullRequest` when present. -/
structure PullRequestInfo where
  number : Nat
  title : String
  body : String
  headBranch : String
  baseBranch : String
deriving DecidableEq, Repr

/-- `AgentContext.sender`. -/
structure Sender where
  login : String
deriving DecidableEq, Repr

/-- `AgentContext` from runAgent.ts (identical in both variants). -/
structure AgentContext where
  eventType : String
  action : String
  repository : Repository
  issue : Option IssueInfo := none
  pullRequest : Option PullRequestInfo := none
  sender : Sender
  deliveryId : String
deriving DecidableEq, Repr

-- ===========================================
-- Skill policy (src/agent/skillPolicy.ts)
-- ===========================================

/-- Char-wise lowercase, modelling JS `String.prototype.toLowerCase` on the
ASCII strings the policy compares. -/
def jsToLower (s : String) : String := String.mk (s.data.map Char.toLower)

/-- Does the second list start with the first? -/
def leadsWith : List Char → List Char → Bool
  | [], _ => true
  | _ :: _, [] => false
  | a :: as, b :: bs => a = b && leadsWith as bs

/-- Does `pat` occur contiguously somewhere in the second list? -/
def occursIn (pat : List Char) : List Char → Bool
  | [] => leadsWith pat []
  | c :: rest => leadsWith pat (c :: rest) || occursIn pat rest

/-- JS `String.prototype.includes`: substring containment. -/
def jsIncludes (s pat : String) : Bool := occursIn pat.data s.data

/-- `SkillTrigger.type`: `'event_type' | 'label' | 'keyword' | 'path_pattern'`. -/
inductive TriggerType where
  | event_type
  | label
  | keyword
  | path_pattern
deriving DecidableEq, Repr

/-- `SkillTrigger` from skillPolicy.ts. Modelled from the spec: the TS field is
`value: string | string[]`; §3 describes "a value or set of values", and the
code normalizes a single string into a one-element array, so the value is
embedded as the normalized list. -/
structure SkillTrigger where
  type : TriggerType
  value : List String
deriving DecidableEq, Repr

/-- `Skill` metadata from skillPolicy.ts (§3 gives the priority as an integer
weight). -/
structure Skill where
  name : String
  description : String
  path : String
  triggers : List SkillTrigger
  priority : Int
deriving DecidableEq, Repr

/-- The text searched by keyword triggers: hoisted from the `keyword` case of
`evaluateTrigger`. Modelled from the spec: the documented excerpt shows
`[context.issue?.title, context.issue?.body, ...].join(' ').toLowerCase()` with
the tail elided; §4.2 names the concatenation of issue title/body and
change-request title/body (JS `join` renders an absent entry as `''`). -/
def textToSearchOf (context : AgentContext) : String :=
  jsToLower (String.intercalate " "
    [(context.issue.map fun i => i.title).getD "",
     (context.issue.map fun i => i.body).getD "",
     (context.pullRequest.map fun p => p.title).getD "",
     (context.pullRequest.map fun p => p.body).getD ""])

/-- `evaluateTrigger` (skillPolicy.ts, documented excerpt lines 382-417):
event_type scores 2 on exact membership; label scores 1 per context label that
case-insensitively contains a configured value; keyword scores 0.5 per
configured keyword found in the concatenated text; path_pattern is
unimplemented and scores 0. Scores are exact JS floats, embedded as `ℚ`. -/
def evaluateTrigger (trigger : SkillTrigger) (context : AgentContext) : ℚ :=
  match trigger.type with
  | .event_type => if trigger.value.contains context.eventType then 2 else 0
  | .label =>
    let labels := match context.issue with | some i => i.labels | none => []
    ((labels.filter fun l =>
        trigger.value.any fun v => jsIncludes (jsToLower l) (jsToLower v)).length : ℚ)
  | .keyword =>
    ((trigger.value.filter fun v =>
        jsIncludes (textToSearchOf context) (jsToLower v)).length : ℚ) * (1 / 2)
  | .path_pattern => 0

/-- `evaluateSkillMatch`: sum of the trigger scores. -/
def evaluateSkillMatch (skill : Skill) (context : AgentContext) : ℚ :=
  skill.triggers.foldl (fun score trigger => score + evaluateTrigger trigger context) 0

/-- Insertion step of the stable descending sort: the element being inserted
comes from earlier in the list, so it goes after every element with a strictly
larger score and before the first one whose score is not larger. -/
def insertByScoreDesc (x : Skill × ℚ) : List (Skill × ℚ) → List (Skill × ℚ)
  | [] => [x]
  | y :: ys => if x.2 < y.2 then y :: insertByScoreDesc x ys else x :: y :: ys

/-- JS `Array.prototype.sort` with comparator `(a, b) => b.score - a.score`:
a stable descending sort on the score (stability is guaranteed by ES2019). -/
def sortByScoreDesc : List (Skill × ℚ) → List (Skill × ℚ)
  | [] => []
  | x :: xs => insertByScoreDesc x (sortByScoreDesc xs)

/-- `selectSkills` (skillPolicy.ts, documented excerpt lines 315-331). The
source closes over the module-level `skillRegistry`, whose entries are only
partially shown in the documentation, so the registry is a parameter here:
score every skill, keep those with positive raw score paired with
`score * priority`, sort descending (stable), take the first `maxSkills`
(default 3). -/
def selectSkills (registry : List Skill) (context : AgentContext) (maxSkills : Nat := 3) :
    List Skill :=
  let matchingSkills := registry.foldl
    (fun acc skill =>
      let score := evaluateSkillMatch skill context
      if 0 < score then acc ++ [(skill, score * (skill.priority : ℚ))] else acc) []
  ((sortByScoreDesc matchingSkills).take maxSkills).map (fun m => m.1)

/-- Spec-side trigger score, written after C6's wording: 2 if an event_type
trigger's values contain the context's event kind, 1 per context label
case-insensitively containing a label-trigger value, 0.5 per keyword-trigger
value found in the concatenated issue/PR title and body text, 0 for
path_pattern triggers. -/
def triggerScoreSpec (context : AgentContext) (trigger : SkillTrigger) : ℚ :=
  match trigger.type with
  | .event_type => if trigger.value.contains context.eventType then 2 else 0
  | .label =>
    (((match context.issue with | some i => i.labels | none => []).filter fun l =>
        trigger.value.any fun v => jsIncludes (jsToLower l) (jsToLower v)).length : ℚ)
  | .keyword =>
    ((trigger.value.filter fun v =>
        jsIncludes (textToSearchOf context) (jsToLower v)).length : ℚ) * (1 / 2)
  | .path_pattern => 0

/-- Spec-side match score: the sum over the skill's triggers. -/
def matchScoreSpec (context : AgentContext) (skill : Skill) : ℚ :=
  (skill.triggers.map (triggerScoreSpec context)).sum

/-- Spec-side selection, written after C6's wording: score each skill, exclude
those whose score is not positive, multiply the remaining scores by the skill's
priority, sort descending by that ranking score with ties keeping registry
order, return the first `maxSkills` descriptors. -/
def selectSkillsSpec (registry : List Skill) (context : AgentContext) (maxSkills : Nat) :
    List Skill :=
  let scored := registry.filterMap fun skill =>
    let m := matchScoreSpec context skill
    if 0 < m then some (skill, m * (skill.priority : ℚ)) else none
  ((sortByScoreDesc scored).take maxSkills).map Prod.fst

-- ===========================================
-- Skill content loading (skillPolicy.ts, loadSkillContent)
-- ===========================================

/-- The skill's directory `path.join(__dirname, '..', 'skills', skill.path)`;
the machine-dependent `__dirname/..` prefix is dropped. -/
def skillDirOf (skill : Skill) : String := "skills/" ++ skill.path

/-- `path.join(skillDir, 'SKILL.md')`. -/
def skillMdPathOf (skill : Skill) : String := skillDirOf skill ++ "/SKILL.md"

/-- `path.join(skillDir, 'examples.md')`. -/
def examplesPathOf (skill : Skill) : String := skillDirOf skill ++ "/examples.md"

/-- `loadSkillContent` (skillPolicy.ts, documented excerpt lines 433-458). The
content store is a function from path to `Option` content: `some` is a
successful `readFileAsync`, `none` a rejected one caught by the try/catch.
Header, then SKILL.md (placeholder `*SKILL.md not found*` on failure), then an
Examples section only when examples.md is readable. -/
def loadSkillContent (fileStore : String → Option String) (skill : Skill) : String :=
  let content := "# Skill: " ++ skill.name ++ "\n\n"
  let content := content ++ "> " ++ skill.description ++ "\n\n"
  let content :=
    match fileStore (skillMdPathOf skill) with
    | some skillMd => content ++ skillMd
    | none => content ++ "*SKILL.md not found*\n"
  match fileStore (examplesPathOf skill) with
  | some examples => content ++ "\n\n## Examples\n\n" ++ examples
  | none => content

/-- Spec-side: the header with the skill's name and description. -/
def headerOf (skill : Skill) : String :=
  "# Skill: " ++ skill.name ++ "\n\n" ++ "> " ++ skill.description ++ "\n\n"

/-- Spec-side: the primary SKILL.md content, or the placeholder when it cannot
be read. -/
def primaryOf (fileStore : String → Option String) (skill : Skill) : String :=
  match fileStore (skillMdPathOf skill) with
  | some skillMd => skillMd
  | none => "*SKILL.md not found*\n"

/-- Spec-side: the labelled Examples section, empty when examples.md cannot be
read. -/
def examplesSectionOf (fileStore : String → Option String) (skill : Skill) : String :=
  match fileStore (examplesPathOf skill) with
  | some examples => "\n\n## Examples\n\n" ++ examples
  | none => ""

-- ===========================================
-- Agent loop (src/agent/runAgent.ts, both variants)
-- ===========================================

/-- A tool-call request extracted from a model response. The OpenRouter
variant's `ToolCall` is `{id, name, input}` (the parsed argument object is
embedded as its JSON text); the stub variant's lacks `id` and never reads
one, so the field is simply ignored there. -/
structure ToolCall where
  id : String
  name : String
  input : String
deriving DecidableEq, Repr

/-- What `callLLM` (OpenRouter variant) resolves to: `{content, toolCalls,
finishReason}`. The stub variant's `callClaude` resolves to `{content,
toolCalls, stopReason}`; `finishReason` doubles as that `stopReason`. -/
structure ModelResponse where
  content : String
  toolCalls : List ToolCall
  finishReason : String
deriving DecidableEq, Repr

/-- Role of a conversation message. -/
inductive Role where
  | user
  | assistant
  | tool
deriving DecidableEq, Repr

/-- A conversation turn: `tool_calls` is only populated on assistant turns
that request tools (OpenRouter variant), `tool_call_id` only on tool-result
turns. -/
structure ChatMessage where
  role : Role
  content : String
  tool_calls : List ToolCall := []
  tool_call_id : String := ""
deriving DecidableEq, Repr

/-- `AgentResult` from runAgent.ts. -/
structure AgentResult where
  success : Bool
  completedSteps : List String
  error : Option String := none
deriving DecidableEq, Repr

/-- The external collaborators `runAgent` awaits, per §6 of the spec:
- `select` is the evaluation of `selectSkills(context)` for this run's context
  (§7 lets selection errors propagate to the top-level catch);
- `load` is the awaited `loadSkillContent` promise for one skill;
- `callModel systemPrompt messages` is the awaited provider call (the constant
  `toolDefinitions` argument is omitted); `Except.error` is a rejection;
- `toolReg` is the `toolRegistry` lookup: a registered executor takes the
  call's arguments and resolves to its JSON-stringified payload, or rejects. -/
structure AgentEnv where
  context : AgentContext
  select : Except String (List Skill)
  load : Skill → Except String String
  callModel : String → List ChatMessage → Except String ModelResponse
  toolReg : String → Option (String → Except String String)

/-- Modelled from the spec: `getBasePrompt` from src/agent/prompt.ts, whose
literal text §1 places out of scope; an uninterpreted constant. -/
def getBasePrompt : String := "BASE_PROMPT"

/-- `buildContextMessage` (identical in both variants): renders the context as
the initial user turn. JS `labels.join(', ') || 'none'` and
`body || 'No description provided.'` substitute on the empty string. -/
def buildContextMessage (context : AgentContext) : String :=
  let message := "# New " ++ context.eventType ++ " Event\n\n"
  let message := message ++ "**Repository:** " ++ context.repository.fullName ++ "\n"
  let message := message ++ "**Action:** " ++ context.action ++ "\n"
  let message := message ++ "**Triggered by:** " ++ context.sender.login ++ "\n\n"
  let message := message ++
    match context.issue with
    | none => ""
    | some issue =>
      let labelsText := String.intercalate ", " issue.labels
      "## Issue #" ++ toString issue.number ++ "\n" ++
      "**Title:** " ++ issue.title ++ "\n" ++
      "**Labels:** " ++ (if labelsText = "" then "none" else labelsText) ++ "\n\n" ++
      "### Description\n" ++
      (if issue.body = "" then "No description provided." else issue.body) ++ "\n"
  let message := message ++
    match context.pullRequest with
    | none => ""
    | some pr =>
      "## Pull Request #" ++ toString pr.number ++ "\n" ++
      "**Title:** " ++ pr.title ++ "\n" ++
      "**Branch:** " ++ pr.headBranch ++ " → " ++ pr.baseBranch ++ "\n\n" ++
      "### Description\n" ++
      (if pr.body = "" then "No description provided." else pr.body) ++ "\n"
  message ++ "\n---\n\nPlease analyze this event and take appropriate action based on your loaded skills."

/-- `await Promise.all(selectedSkills.map(loadSkillContent))`: the contents in
order, or the first rejection in list order. -/
def loadAllSkills (load : Skill → Except String String) :
    List Skill → Except String (List String)
  | [] => .ok []
  | skill :: rest =>
    match load skill with
    | .error e => .error e
    | .ok content =>
      match loadAllSkills load rest with
      | .error e => .error e
      | .ok contents => .ok (content :: contents)

/-- Step 3 of `runAgent`: base prompt plus the loaded-skills section
(`skillContents.join` with the separator). -/
def systemPromptOf (skillContents : List String) : String :=
  getBasePrompt ++ "\n\n## Loaded Skills\n\n" ++ String.intercalate "\n\n---\n\n" skillContents

/-- The first step description `runAgent` records. -/
def selectedStep (selectedSkills : List Skill) : String :=
  "Selected " ++ toString selectedSkills.length ++ " skills"

/-- The assistant turn the OpenRouter variant appends: content plus the
requested tool calls echoed verbatim (empty list when none). -/
def assistantMessageOf (response : ModelResponse) : ChatMessage :=
  { role := .assistant, content := response.content, tool_calls := response.toolCalls }

/-- The tool-dispatch block of the OpenRouter variant (runAgent.ts lines
1002-1028): for each call in request order, record the step, then build the
result content — `Error: Unknown tool "<name>"` when the name is not
registered, `Error: <message>` when the executor rejects, else the stringified
result — and append it as a tool-result turn correlated to the call's id.
Total: it never throws. -/
def execToolCalls (toolReg : String → Option (String → Except String String)) :
    List ToolCall → List ChatMessage → List String → List ChatMessage × List String
  | [], messages, steps => (messages, steps)
  | tc :: rest, messages, steps =>
    let steps := steps ++ ["Executed tool: " ++ tc.name]
    let resultContent :=
      match toolReg tc.name with
      | none => "Error: Unknown tool \"" ++ tc.name ++ "\""
      | some toolFn =>
        match toolFn tc.input with
        | .ok toolResult => toolResult
        | .error e => "Error: " ++ e
    execToolCalls toolReg rest
      (messages ++ [{ role := .tool, content := resultContent, tool_call_id := tc.id }]) steps

/-- The `while` loop of the OpenRouter `runAgent` (lines 962-1029), as a
fuel-indexed recursion; `fuel` is `MAX_ITERATIONS - iteration`. Returns the
final messages, steps, the number of iterations executed in this call, and
whether a natural stop happened; or, when the provider call rejects, the error
message together with the steps and started-iteration count at that point. -/
def agentLoop (env : AgentEnv) (systemPrompt : String) :
    Nat → List ChatMessage → List String →
    Except (String × List String × Nat) (List ChatMessage × List String × Nat × Bool)
  | 0, messages, steps => .ok (messages, steps, 0, false)
  | Nat.succ fuel, messages, steps =>
    match env.callModel systemPrompt messages with
    | .error e => .error (e, steps, 1)
    | .ok response =>
      let messages := messages ++ [assistantMessageOf response]
      if response.finishReason = "stop" && response.toolCalls.isEmpty then
        .ok (messages, steps ++ ["Task completed"], 1, true)
      else
        let ms := execToolCalls env.toolReg response.toolCalls messages steps
        match agentLoop env systemPrompt fuel ms.1 ms.2 with
        | .error (e, st, n) => .error (e, st, n + 1)
        | .ok (m, st, n, natural) => .ok (m, st, n + 1, natural)

/-- `MAX_ITERATIONS` of the OpenRouter variant (runAgent.ts line 958). -/
def MAX_ITERATIONS : Nat := 15

/-- The OpenRouter `runAgent` (runAgent.ts lines 925-1048): select skills, load
their content, build the system prompt and initial user turn, run the loop,
record `Max iterations reached` when the iteration counter hit the cap, and
catch any thrown error into `{success: false, error}` with the steps
accumulated so far. Also returns the loop's iteration count. -/
def runAgent (env : AgentEnv) : AgentResult × Nat :=
  match env.select with
  | .error e => ({ success := false, completedSteps := [], error := some e }, 0)
  | .ok selectedSkills =>
    let steps := [selectedStep selectedSkills]
    match loadAllSkills env.load selectedSkills with
    | .error e => ({ success := false, completedSteps := steps, error := some e }, 0)
    | .ok skillContents =>
      let steps := steps ++ ["Loaded skill content"]
      let messages : List ChatMessage :=
        [{ role := .user, content := buildContextMessage env.context }]
      match agentLoop env (systemPromptOf skillContents) MAX_ITERATIONS messages steps with
      | .error (e, st, n) => ({ success := false, completedSteps := st, error := some e }, n)
      | .ok (_, st, n, _) =>
        let st := if MAX_ITERATIONS ≤ n then st ++ ["Max iterations reached"] else st
        ({ success := true, completedSteps := st, error := none }, n)

/-- The tool-dispatch block of the stub variant (runAgent.ts lines 391-409):
records the step, then `throw new Error('Unknown tool: <name>')` when the name
is not registered; a rejecting executor also throws; on success the result is
appended as a user turn `Tool result for <name>:\n<result>`. Errors carry the
steps accumulated at the throw. -/
def execToolCallsStub (toolReg : String → Option (String → Except String String)) :
    List ToolCall → List ChatMessage → List String →
    Except (String × List String) (List ChatMessage × List String)
  | [], messages, steps => .ok (messages, steps)
  | tc :: rest, messages, steps =>
    let steps := steps ++ ["Executed tool: " ++ tc.name]
    match toolReg tc.name with
    | none => .error ("Unknown tool: " ++ tc.name, steps)
    | some toolFn =>
      match toolFn tc.input with
      | .error e => .error (e, steps)
      | .ok toolResult =>
        execToolCallsStub toolReg rest
          (messages ++
            [{ role := .user, content := "Tool result for " ++ tc.name ++ ":\n" ++ toolResult }])
          steps

/-- `MAX_ITERATIONS` of the stub variant (runAgent.ts line 370). -/
def MAX_ITERATIONS_STUB : Nat := 10

/-- The `while` loop of the stub `runAgent` (lines 373-410): like `agentLoop`
but the natural-stop signal is `stopReason === 'end_turn'`, the assistant turn
keeps only the content, and tool dispatch can throw. -/
def agentLoopStub (env : AgentEnv) (systemPrompt : String) :
    Nat → List ChatMessage → List String →
    Except (String × List String × Nat) (List ChatMessage × List String × Nat × Bool)
  | 0, messages, steps => .ok (messages, steps, 0, false)
  | Nat.succ fuel, messages, steps =>
    match env.callModel systemPrompt messages with
    | .error e => .error (e, steps, 1)
    | .ok response =>
      let messages := messages ++ [{ role := .assistant, content := response.content }]
      if response.finishReason = "end_turn" && response.toolCalls.isEmpty then
        .ok (messages, steps ++ ["Task completed"], 1, true)
      else
        match execToolCallsStub env.toolReg response.toolCalls messages steps with
        | .error (e, st) => .error (e, st, 1)
        | .ok (ms, st) =>
          match agentLoopStub env systemPrompt fuel ms st with
          | .error (e, st2, n) => .error (e, st2, n + 1)
          | .ok (m, st2, n, natural) => .ok (m, st2, n + 1, natural)

/-- The stub `runAgent` (runAgent.ts lines 339-429): identical orchestration to
the OpenRouter variant, with the stub loop and a cap of 10. -/
def runAgentStub (env : AgentEnv) : AgentResult × Nat :=
  match env.select with
  | .error e => ({ success := false, completedSteps := [], error := some e }, 0)
  | .ok selectedSkills =>
    let steps := [selectedStep selectedSkills]
    match loadAllSkills env.load selectedSkills with
    | .error e => ({ success := false, completedSteps := steps, error := some e }, 0)
    | .ok skillContents =>
      let steps := steps ++ ["Loaded skill content"]
      let messages : List ChatMessage :=
        [{ role := .user, content := buildContextMessage env.context }]
      match agentLoopStub env (systemPromptOf skillContents) MAX_ITERATIONS_STUB messages steps with
      | .error (e, st, n) => ({ success := false, completedSteps := st, error := some e }, n)
      | .ok (_, st, n, _) =>
        let st := if MAX_ITERATIONS_STUB ≤ n then st ++ ["Max iterations reached"] else st
        ({ success := true, completedSteps := st, error := none }, n)

-- ===========================================
-- Concrete environments used by counterexamples and witnesses
-- ===========================================

/-- A minimal issue-less context. -/
def ctxPlain : AgentContext :=
  { eventType := "issues", action := "opened", repository := ⟨"o", "r", "o/r"⟩,
    sender := ⟨"u"⟩, deliveryId := "d1" }

/-- A tool call whose name is registered in neither variant's registry. -/
def bogusCall : ToolCall := { id := "id1", name := "bogus", input := "x" }

/-- A provider response that always requests one (unknown) tool call. -/
def toolUseResponse : ModelResponse :=
  { content := "", toolCalls := [bogusCall], finishReason := "tool_use" }

/-- Environment whose provider always requests the unregistered tool `bogus`
and whose registry is empty. -/
def envBogus : AgentEnv :=
  { context := ctxPlain, select := .ok [], load := fun _ => .ok "",
    callModel := fun _ _ => .ok toolUseResponse, toolReg := fun _ => none }

/-- Environment whose provider call rejects with `boom`. -/
def envBoom : AgentEnv :=
  { context := ctxPlain, select := .ok [], load := fun _ => .ok "",
    callModel := fun _ _ => .error "boom", toolReg := fun _ => none }

-- ===========================================
-- Store lemmas
-- ===========================================

theorem storeGet_storeSet_self (s : JobStore) (id : String) (r : JobRecord) :
    storeGet (storeSet s id r) id = some r := by
  induction s with
  | nil => simp [storeSet, storeGet]
  | cons p rest ih =>
    obtain ⟨k, v⟩ := p
    by_cases h : k = id
    · simp [storeSet, storeGet, h]
    · simp [storeSet, storeGet, h, ih]

theorem storeGet_storeSet_ne (s : JobStore) (id id' : String) (r : JobRecord)
    (h : id' ≠ id) : storeGet (storeSet s id r) id' = storeGet s id' := by
  induction s with
  | nil => simp [storeSet, storeGet, Ne.symm h]
  | cons p rest ih =>
    obtain ⟨k, v⟩ := p
    by_cases hk : k = id
    · subst hk
      simp [storeSet, storeGet, Ne.symm h]
    · simp only [storeSet, if_neg hk, storeGet]
      by_cases hk' : k = id'
      · simp [hk']
      · simp [hk', ih]

theorem storeGet_mem {s : JobStore} {id : String} {r : JobRecord}
    (h : storeGet s id = some r) : (id, r) ∈ s := by
  induction s with
  | nil => simp [storeGet] at h
  | cons p rest ih =>
    obtain ⟨k, v⟩ := p
    by_cases hk : k = id
    · subst hk
      simp only [storeGet, if_true, eq_self_iff_true] at h
      have hv : v = r := by simpa using h
      subst hv
      exact List.mem_cons_self _ _
    · simp only [storeGet, if_neg hk] at h
      exact List.mem_cons_of_mem _ (ih h)

theorem storeGet_none_of_not_mem_keys {s : JobStore} {id : String}
    (h : id ∉ s.map Prod.fst) : storeGet s id = none := by
  induction s with
  | nil => rfl
  | cons p rest ih =>
    obtain ⟨k, v⟩ := p
    have h1 : ¬ k = id := fun hh => h (by simp [hh])
    have h2 : id ∉ rest.map Prod.fst := fun hh => h (by simp [hh])
    simp [storeGet, h1, ih h2]

theorem mem_keys_storeSet {s : JobStore} {id x : String} {r : JobRecord}
    (h : x ∈ (storeSet s id r).map Prod.fst) : x ∈ s.map Prod.fst ∨ x = id := by
  induction s with
  | nil =>
    right
    simpa [storeSet] using h
  | cons p rest ih =>
    obtain ⟨k, v⟩ := p
    by_cases hk : k = id
    · have hs : storeSet ((k, v) :: rest) id r = (id, r) :: rest := by
        simp [storeSet, hk]
      rw [hs] at h
      simp only [List.map_cons, List.mem_cons] at h
      rcases h with h | h
      · exact Or.inr h
      · exact Or.inl (by simp only [List.map_cons, List.mem_cons]; exact Or.inr h)
    · simp only [storeSet, if_neg hk, List.map_cons, List.mem_cons] at h
      rcases h with h | h
      · exact Or.inl (by simp only [List.map_cons, List.mem_cons]; exact Or.inl h)
      · rcases ih h with h' | h'
        · exact Or.inl (by simp only [List.map_cons, List.mem_cons]; exact Or.inr h')
        · exact Or.inr h'

theorem nodup_keys_storeSet {s : JobStore} (id : String) (r : JobRecord)
    (h : (s.map Prod.fst).Nodup) : ((storeSet s id r).map Prod.fst).Nodup := by
  induction s with
  | nil => simp [storeSet]
  | cons p rest ih =>
    obtain ⟨k, v⟩ := p
    simp only [List.map_cons, List.nodup_cons] at h
    by_cases hk : k = id
    · have hs : storeSet ((k, v) :: rest) id r = (id, r) :: rest := by
        simp [storeSet, hk]
      rw [hs]
      subst hk
      simp only [List.map_cons, List.nodup_cons]
      exact h
    · simp only [storeSet, if_neg hk, List.map_cons, List.nodup_cons]
      refine ⟨?_, ih h.2⟩
      intro hmem
      rcases mem_keys_storeSet hmem with h' | h'
      · exact h.1 h'
      · exact hk h'

theorem storeGet_filter_none {s : JobStore} {id : String}
    (p : String × JobRecord → Bool) (h : storeGet s id = none) :
    storeGet (s.filter p) id = none := by
  induction s with
  | nil => rfl
  | cons q rest ih =>
    obtain ⟨k, v⟩ := q
    by_cases hk : k = id
    · subst hk
      simp [storeGet] at h
    · simp only [storeGet, if_neg hk] at h
      by_cases hp : p (k, v)
      · simp [List.filter_cons, hp, storeGet, hk, ih h]
      · simp [List.filter_cons, hp, ih h]

theorem storeGet_filter {s : JobStore} {id : String} {r : JobRecord}
    (p : String × JobRecord → Bool)
    (hnd : (s.map Prod.fst).Nodup) (h : storeGet s id = some r) :
    storeGet (s.filter p) id = if p (id, r) then some r else none := by
  induction s with
  | nil => simp [storeGet] at h
  | cons q rest ih =>
    obtain ⟨k, v⟩ := q
    simp only [List.map_cons, List.nodup_cons] at hnd
    by_cases hk : k = id
    · subst hk
      have hv : v = r := by simpa [storeGet] using h
      subst hv
      by_cases hp : p (k, v)
      · simp [List.filter_cons, hp, storeGet]
      · have hrest : storeGet rest k = none :=
          storeGet_none_of_not_mem_keys hnd.1
        simp [List.filter_cons, hp, storeGet_filter_none p hrest]
    · simp only [storeGet, if_neg hk] at h
      by_cases hp : p (k, v)
      · simp only [List.filter_cons, if_pos hp, storeGet, if_neg hk]
        exact ih hnd.2 h
      · simp only [List.filter_cons, if_neg hp]
        exact ih hnd.2 h

-- ===========================================
-- Guard behavior lemmas
-- ===========================================

theorem isDuplicate_of_processing (cfg : IdempotencyConfig) (s : JobStore) (jobId : String)
    (t : Nat) (r : JobRecord) (h : storeGet s jobId = some r)
    (hst : r.status = .processing) : isDuplicate cfg s jobId t = (true, s) := by
  simp [isDuplicate, h, hst]

theorem isDupSeq_of_processing (cfg : IdempotencyConfig) (s : JobStore) (jobId : String)
    (ts : List Nat) (r : JobRecord) (h : storeGet s jobId = some r)
    (hst : r.status = .processing) :
    isDupSeq cfg s jobId ts = (List.replicate ts.length true, s) := by
  induction ts with
  | nil => rfl
  | cons t ts ih =>
    simp [isDupSeq, isDuplicate_of_processing cfg s jobId t r h hst, ih, List.replicate]

/-- **C3.** For a delivery id not previously seen by the guard, the first
`isDuplicate` call returns false and leaves the record with status
`'processing'` and `attempts = 1`; every subsequent call made while the
record's status is still `'processing'` returns true, no matter how many times
it is repeated (the store is left unchanged throughout). -/
theorem isDuplicate_admits_once_then_duplicates
    (cfg : IdempotencyConfig) (s : JobStore) (jobId : String) (t : Nat) (ts : List Nat)
    (h : storeGet s jobId = none) :
    (isDuplicate cfg s jobId t).1 = false ∧
    storeGet (isDuplicate cfg s jobId t).2 jobId =
      some { id := jobId, status := .processing, createdAt := t, updatedAt := t,
             attempts := 1 } ∧
    (isDupSeq cfg (isDuplicate cfg s jobId t).2 jobId ts).1 = List.replicate ts.length true ∧
    (isDupSeq cfg (isDuplicate cfg s jobId t).2 jobId ts).2 = (isDuplicate cfg s jobId t).2 := by
  have h1 : isDuplicate cfg s jobId t = (false, createRecord s jobId t) := by
    simp [isDuplicate, h]
  have h2 : storeGet (createRecord s jobId t) jobId =
      some { id := jobId, status := .processing, createdAt := t, updatedAt := t,
             attempts := 1 } :=
    storeGet_storeSet_self s jobId _
  have h3 := isDupSeq_of_processing cfg (createRecord s jobId t) jobId ts _ h2 rfl
  rw [h1]
  exact ⟨rfl, h2, by rw [h3], by rw [h3]⟩

/-- Witness for C3 at a concrete input: a fresh id, one admission at time 5,
then three repeats. -/
theorem isDuplicate_admits_once_then_duplicates_witness :
    storeGet ([] : JobStore) "d1" = none ∧
    ((isDuplicate ⟨1000, 3, 100⟩ [] "d1" 5).1 = false ∧
     storeGet (isDuplicate ⟨1000, 3, 100⟩ [] "d1" 5).2 "d1" =
       some { id := "d1", status := .processing, createdAt := 5, updatedAt := 5,
              attempts := 1 } ∧
     (isDupSeq ⟨1000, 3, 100⟩ (isDuplicate ⟨1000, 3, 100⟩ [] "d1" 5).2 "d1" [6, 7, 8]).1 =
       List.replicate [6, 7, 8].length true ∧
     (isDupSeq ⟨1000, 3, 100⟩ (isDuplicate ⟨1000, 3, 100⟩ [] "d1" 5).2 "d1" [6, 7, 8]).2 =
       (isDuplicate ⟨1000, 3, 100⟩ [] "d1" 5).2) :=
  ⟨rfl, isDuplicate_admits_once_then_duplicates ⟨1000, 3, 100⟩ [] "d1" 5 [6, 7, 8] rfl⟩

theorem failRound_gap (t0 d j : Nat) (hj : 1 ≤ j) :
    (t0 + j * d) - (t0 + (j - 1) * d) = d := by
  obtain ⟨i, rfl⟩ := Nat.exists_eq_add_of_le hj
  have h1 : (1 + i) * d = i * d + d := by ring
  have h2 : (1 + i - 1) * d = i * d := by
    have : 1 + i - 1 = i := by omega
    rw [this]
  rw [h1, h2]
  omega

theorem failRounds_record (cfg : IdempotencyConfig) (jobId e : String) (s : JobStore)
    (t0 : Nat) (k : Nat) (hs : storeGet s jobId = none) (hk1 : 1 ≤ k)
    (hk2 : k ≤ cfg.maxAttempts) :
    storeGet (failRounds cfg jobId e s t0 cfg.retryDelay k) jobId =
      some { id := jobId, status := .failed, createdAt := t0,
             updatedAt := t0 + (k - 1) * cfg.retryDelay, error := some e, attempts := k } := by
  induction k with
  | zero => omega
  | succ j ih =>
    by_cases hj : j = 0
    · subst hj
      have h1 : isDuplicate cfg s jobId t0 = (false, createRecord s jobId t0) := by
        simp [isDuplicate, hs]
      have h2 : storeGet (createRecord s jobId t0) jobId =
          some { id := jobId, status := .processing, createdAt := t0, updatedAt := t0,
                 attempts := 1 } :=
        storeGet_storeSet_self s jobId _
      simp only [failRounds, failRound, Nat.zero_mul, Nat.add_zero, h1, markFailed, h2]
      rw [storeGet_storeSet_self]
      simp
    · have hj1 : 1 ≤ j := Nat.one_le_iff_ne_zero.mpr hj
      have hrec := ih hj1 (by omega)
      set d := cfg.retryDelay with hd
      have hnotmax : ¬ cfg.maxAttempts ≤ j := by omega
      have hgap : (t0 + j * d) - (t0 + (j - 1) * d) = d := failRound_gap t0 d j hj1
      have hdup :
          isDuplicate cfg (failRounds cfg jobId e s t0 d j) jobId (t0 + j * d) =
            (false, markProcessing (failRounds cfg jobId e s t0 d j) jobId (t0 + j * d)) := by
        simp [isDuplicate, hrec, hnotmax, hgap]
      have hmark :
          storeGet (markProcessing (failRounds cfg jobId e s t0 d j) jobId (t0 + j * d)) jobId =
            some { id := jobId, status := .processing, createdAt := t0, updatedAt := t0 + j * d, error := some e, attempts := j + 1 } := by
        simp only [markProcessing, hrec]
        exact storeGet_storeSet_self _ jobId _
      simp only [failRounds, failRound, hdup, markFailed, hmark]
      rw [storeGet_storeSet_self]
      simp only [Nat.add_sub_cancel]

/-- **C4.** With `maxAttempts = N ≥ 1` and a fresh id, a sequence of `N`
admissions each followed by `markFailed` (rounds spaced exactly one
`retryDelay` apart, so each is admitted) admits every round; after the `N`-th
failure the record holds `attempts = N` and any further `isDuplicate` call
returns true at every timestamp — in particular long after the retry delay has
elapsed. -/
theorem isDuplicate_exhausted_after_max_failures
    (cfg : IdempotencyConfig) (s : JobStore) (jobId e : String) (t0 t : Nat)
    (hs : storeGet s jobId = none) (hmax : 1 ≤ cfg.maxAttempts) :
    (∀ k, k < cfg.maxAttempts →
      (isDuplicate cfg (failRounds cfg jobId e s t0 cfg.retryDelay k) jobId
          (t0 + k * cfg.retryDelay)).1 = false) ∧
    attemptsOf (failRounds cfg jobId e s t0 cfg.retryDelay cfg.maxAttempts) jobId =
      some cfg.maxAttempts ∧
    (isDuplicate cfg (failRounds cfg jobId e s t0 cfg.retryDelay cfg.maxAttempts) jobId t).1 =
      true := by
  refine ⟨?_, ?_, ?_⟩
  · intro k hk
    by_cases hk0 : k = 0
    · subst hk0
      simp [failRounds, isDuplicate, hs]
    · have hk1 : 1 ≤ k := Nat.one_le_iff_ne_zero.mpr hk0
      have hrec := failRounds_record cfg jobId e s t0 k hs hk1 (by omega)
      have hnm : ¬ cfg.maxAttempts ≤ k := by omega
      have hgap : (t0 + k * cfg.retryDelay) - (t0 + (k - 1) * cfg.retryDelay) = cfg.retryDelay :=
        failRound_gap t0 cfg.retryDelay k hk1
      simp [isDuplicate, hrec, hnm, hgap]
  · have hrec := failRounds_record cfg jobId e s t0 cfg.maxAttempts hs hmax le_rfl
    simp [attemptsOf, hrec]
  · have hrec := failRounds_record cfg jobId e s t0 cfg.maxAttempts hs hmax le_rfl
    simp [isDuplicate, hrec]

/-- Witness for C4: `maxAttempts = 3`, rounds at times 0, 100, 200, then a
probe at time 999999, far beyond the 100 ms retry delay. -/
theorem isDuplicate_exhausted_after_max_failures_witness :
    storeGet ([] : JobStore) "d1" = none ∧ 1 ≤ (3 : Nat) ∧
    ((∀ k, k < (3 : Nat) →
      (isDuplicate ⟨1000, 3, 100⟩ (failRounds ⟨1000, 3, 100⟩ "d1" "boom" [] 0 100 k) "d1"
          (0 + k * 100)).1 = false) ∧
     attemptsOf (failRounds ⟨1000, 3, 100⟩ "d1" "boom" [] 0 100 3) "d1" = some 3 ∧
     (isDuplicate ⟨1000, 3, 100⟩ (failRounds ⟨1000, 3, 100⟩ "d1" "boom" [] 0 100 3) "d1"
        999999).1 = true) :=
  ⟨rfl, by omega,
   isDuplicate_exhausted_after_max_failures ⟨1000, 3, 100⟩ [] "d1" "boom" 0 999999 rfl
     (by decide)⟩

/-- **C5.** For a record in status `'failed'` with attempts below
`maxAttempts`: an `isDuplicate` call made while less than `retryDelay` has
elapsed since the record's last update returns true and leaves the store
unchanged; one made once the delay has elapsed returns false and transitions
the record to `'processing'` with `attempts` incremented by exactly 1 (and
`updatedAt` refreshed). -/
theorem isDuplicate_failed_cooldown_and_retry
    (cfg : IdempotencyConfig) (s : JobStore) (jobId : String) (now : Nat) (r : JobRecord)
    (h : storeGet s jobId = some r) (hst : r.status = .failed)
    (hatt : r.attempts < cfg.maxAttempts) :
    (now - r.updatedAt < cfg.retryDelay → isDuplicate cfg s jobId now = (true, s)) ∧
    (cfg.retryDelay ≤ now - r.updatedAt →
      (isDuplicate cfg s jobId now).1 = false ∧
      storeGet (isDuplicate cfg s jobId now).2 jobId =
        some { r with status := .processing, updatedAt := now, attempts := r.attempts + 1 }) := by
  constructor
  · intro hcd
    simp [isDuplicate, h, hst, Nat.not_le.mpr hatt, hcd]
  · intro hcd
    have hdup : isDuplicate cfg s jobId now = (false, markProcessing s jobId now) := by
      simp [isDuplicate, h, hst, Nat.not_le.mpr hatt, Nat.not_lt.mpr hcd]
    rw [hdup]
    refine ⟨rfl, ?_⟩
    simp only [markProcessing, h]
    exact storeGet_storeSet_self s jobId _

/-- Witness for C5: a failed record last updated at time 0 with 1 of 3
attempts and a 100 ms retry delay; a probe at time 50 is rejected, one at time
100 is admitted and increments attempts to 2. -/
theorem isDuplicate_failed_cooldown_and_retry_witness :
    storeGet [("d1", { id := "d1", status := JobStatus.failed, createdAt := 0, updatedAt := 0, error := some "x", attempts := 1 })] "d1" =
      some { id := "d1", status := JobStatus.failed, createdAt := 0, updatedAt := 0, error := some "x", attempts := 1 } ∧
    ((50 : Nat) - 0 < 100 →
      isDuplicate ⟨1000, 3, 100⟩
        [("d1", { id := "d1", status := JobStatus.failed, createdAt := 0, updatedAt := 0, error := some "x", attempts := 1 })] "d1" 50 =
        (true, [("d1", { id := "d1", status := JobStatus.failed, createdAt := 0, updatedAt := 0, error := some "x", attempts := 1 })])) ∧
    ((100 : Nat) ≤ 100 - 0 →
      (isDuplicate ⟨1000, 3, 100⟩
        [("d1", { id := "d1", status := JobStatus.failed, createdAt := 0, updatedAt := 0, error := some "x", attempts := 1 })] "d1" 100).1 = false ∧
      storeGet (isDuplicate ⟨1000, 3, 100⟩
        [("d1", { id := "d1", status := JobStatus.failed, createdAt := 0, updatedAt := 0, error := some "x", attempts := 1 })] "d1" 100).2 "d1" =
        some { id := "d1", status := JobStatus.processing, createdAt := 0, updatedAt := 100, error := some "x", attempts := 2 }) :=
  ⟨rfl,
   (isDuplicate_failed_cooldown_and_retry ⟨1000, 3, 100⟩
      [("d1", { id := "d1", status := JobStatus.failed, createdAt := 0, updatedAt := 0, error := some "x", attempts := 1 })]
      "d1" 50
      { id := "d1", status := JobStatus.failed, createdAt := 0, updatedAt := 0, error := some "x", attempts := 1 }
      rfl rfl (by decide)).1,
   (isDuplicate_failed_cooldown_and_retry ⟨1000, 3, 100⟩
      [("d1", { id := "d1", status := JobStatus.failed, createdAt := 0, updatedAt := 0, error := some "x", attempts := 1 })]
      "d1" 100
      { id := "d1", status := JobStatus.failed, createdAt := 0, updatedAt := 0, error := some "x", attempts := 1 }
      rfl rfl (by decide)).2⟩

-- ===========================================
-- Attempt-count monotonicity and status invariant
-- ===========================================

theorem attemptsOf_storeSet (s : JobStore) (jobId : String) (w : JobRecord) (id : String) :
    attemptsOf (storeSet s jobId w) id = if id = jobId then some w.attempts else attemptsOf s id := by
  by_cases hid : id = jobId
  · subst hid
    simp [attemptsOf, storeGet_storeSet_self]
  · simp [attemptsOf, hid, storeGet_storeSet_ne s jobId id w hid]

theorem attempts_mono_storeSet_same (s : JobStore) (jobId : String) (v w : JobRecord)
    (hvw : v.attempts ≤ w.attempts) (hg : storeGet s jobId = some v) :
    ∀ id r r', storeGet s id = some r → storeGet (storeSet s jobId w) id = some r' →
      r.attempts ≤ r'.attempts := by
  intro id r r' hr hr'
  by_cases hid : id = jobId
  · subst hid
    rw [hg] at hr
    injection hr with hr
    rw [storeGet_storeSet_self] at hr'
    injection hr' with hr'
    subst hr
    subst hr'
    exact hvw
  · rw [storeGet_storeSet_ne s jobId id w hid, hr] at hr'
    injection hr' with hr'
    subst hr'
    exact le_refl _

theorem attempts_mono_createRecord (s : JobStore) (jobId : String) (t : Nat)
    (hg : storeGet s jobId = none) :
    ∀ id r r', storeGet s id = some r → storeGet (createRecord s jobId t) id = some r' →
      r.attempts ≤ r'.attempts := by
  intro id r r' hr hr'
  by_cases hid : id = jobId
  · subst hid
    rw [hg] at hr
    cases hr
  · rw [createRecord, storeGet_storeSet_ne s jobId id _ hid, hr] at hr'
    injection hr' with hr'
    subst hr'
    exact le_refl _

theorem attempts_mono_markProcessing (s : JobStore) (jobId : String) (t : Nat) :
    ∀ id r r', storeGet s id = some r → storeGet (markProcessing s jobId t) id = some r' →
      r.attempts ≤ r'.attempts := by
  intro id r r' hr hr'
  cases hg : storeGet s jobId with
  | none =>
    simp only [markProcessing, hg] at hr'
    rw [hr] at hr'
    injection hr' with hr'
    subst hr'
    exact le_refl _
  | some rec =>
    simp only [markProcessing, hg] at hr'
    exact attempts_mono_storeSet_same s jobId rec _ (Nat.le_succ _) hg id r r' hr hr'

theorem isDuplicate_snd_cases (cfg : IdempotencyConfig) (s : JobStore) (jobId : String)
    (t : Nat) :
    (isDuplicate cfg s jobId t).2 = s ∨
    ((isDuplicate cfg s jobId t).2 = createRecord s jobId t ∧ storeGet s jobId = none) ∨
    (isDuplicate cfg s jobId t).2 = markProcessing s jobId t := by
  cases hg : storeGet s jobId with
  | none =>
    refine Or.inr (Or.inl ⟨?_, rfl⟩)
    simp [isDuplicate, hg]
  | some rec =>
    simp only [isDuplicate, hg]
    split_ifs <;> first
      | exact Or.inl rfl
      | exact Or.inr (Or.inr rfl)

/-- **C9 counterexample.** The claim says the `attempts` field never decreases
across any sequence of guard operations including `cleanup`. But `cleanup`
blindly evicts records past the TTL, and a later `isDuplicate` recreates the
record with `attempts = 1`: with `ttl = 1000`, after an admission, a failure
and a retry the record holds `attempts = 2`, and after a cleanup at time 2000
and a re-admission at time 2001 it holds `attempts = 1` — a decrease. -/
theorem attempts_decrease_after_cleanup :
    attemptsOf (runOps ⟨1000, 3, 100⟩ []
      [.isDup "d1" 0, .fail "d1" 0 "e", .isDup "d1" 100]) "d1" = some 2 ∧
    attemptsOf (runOps ⟨1000, 3, 100⟩ []
      [.isDup "d1" 0, .fail "d1" 0 "e", .isDup "d1" 100, .sweep 2000, .isDup "d1" 2001]) "d1" =
      some 1 := by
  decide

/-- **C9 (amended).** As long as the id's record is not evicted by `cleanup`,
its `attempts` field never decreases: for every single guard operation, a
record present before and after the operation has a non-decreasing attempt
count. Moreover `createRecord` sets `attempts` to 1, `markComplete` and
`markFailed` never modify any record's attempts, a re-sighting while the
status is `'processing'` leaves the store entirely unchanged, and
`markProcessing` (the retry-admission path) increments the id's attempts by
exactly 1. Only eviction followed by re-creation can lower the count (see the
counterexample). The store is assumed to have unique keys, which holds for
every store the guard builds. -/
theorem attempts_monotone_unless_evicted :
    (∀ (cfg : IdempotencyConfig) (s : JobStore) (op : GuardOp) (id : String) (r r' : JobRecord),
       (s.map Prod.fst).Nodup → storeGet s id = some r →
       storeGet (applyOp cfg s op) id = some r' → r.attempts ≤ r'.attempts) ∧
    (∀ (s : JobStore) (jobId : String) (t : Nat),
       attemptsOf (createRecord s jobId t) jobId = some 1) ∧
    (∀ (s : JobStore) (jobId : String) (t : Nat) (id : String),
       attemptsOf (markComplete s jobId t) id = attemptsOf s id) ∧
    (∀ (s : JobStore) (jobId : String) (t : Nat) (e : String) (id : String),
       attemptsOf (markFailed s jobId t e) id = attemptsOf s id) ∧
    (∀ (cfg : IdempotencyConfig) (s : JobStore) (jobId : String) (t : Nat) (r : JobRecord),
       storeGet s jobId = some r → r.status = .processing → (isDuplicate cfg s jobId t).2 = s) ∧
    (∀ (s : JobStore) (jobId : String) (t : Nat) (r : JobRecord),
       storeGet s jobId = some r →
       attemptsOf (markProcessing s jobId t) jobId = some (r.attempts + 1)) := by
  refine ⟨?_, ?_, ?_, ?_, ?_, ?_⟩
  · intro cfg s op id r r' hnd hr hr'
    cases op with
    | isDup jobId t =>
      simp only [applyOp] at hr'
      rcases isDuplicate_snd_cases cfg s jobId t with hcase | ⟨hcase, hnone⟩ | hcase
      · rw [hcase, hr] at hr'
        injection hr' with hr'
        subst hr'
        exact le_refl _
      · rw [hcase] at hr'
        exact attempts_mono_createRecord s jobId t hnone id r r' hr hr'
      · rw [hcase] at hr'
        exact attempts_mono_markProcessing s jobId t id r r' hr hr'
    | complete jobId t =>
      simp only [applyOp] at hr'
      cases hg : storeGet s jobId with
      | none =>
        simp only [markComplete, hg] at hr'
        rw [hr] at hr'
        injection hr' with hr'
        subst hr'
        exact le_refl _
      | some rec =>
        simp only [markComplete, hg] at hr'
        exact attempts_mono_storeSet_same s jobId rec
          { rec with status := .completed, updatedAt := t, completedAt := some t }
          (le_refl _) hg id r r' hr hr'
    | fail jobId t e =>
      simp only [applyOp] at hr'
      cases hg : storeGet s jobId with
      | none =>
        simp only [markFailed, hg] at hr'
        rw [hr] at hr'
        injection hr' with hr'
        subst hr'
        exact le_refl _
      | some rec =>
        simp only [markFailed, hg] at hr'
        exact attempts_mono_storeSet_same s jobId rec
          { rec with status := .failed, updatedAt := t, error := some e }
          (le_refl _) hg id r r' hr hr'
    | sweep t =>
      simp only [applyOp, cleanup] at hr'
      rw [storeGet_filter _ hnd hr] at hr'
      split at hr'
      · injection hr' with hr'
        subst hr'
        exact le_refl _
      · cases hr'
  · intro s jobId t
    simp [createRecord, attemptsOf_storeSet]
  · intro s jobId t id
    cases hg : storeGet s jobId with
    | none => simp [markComplete, hg]
    | some rec =>
      simp only [markComplete, hg, attemptsOf_storeSet]
      by_cases hid : id = jobId
      · subst hid
        simp [attemptsOf, hg]
      · simp [hid]
  · intro s jobId t e id
    cases hg : storeGet s jobId with
    | none => simp [markFailed, hg]
    | some rec =>
      simp only [markFailed, hg, attemptsOf_storeSet]
      by_cases hid : id = jobId
      · subst hid
        simp [attemptsOf, hg]
      · simp [hid]
  · intro cfg s jobId t r hr hst
    rw [isDuplicate_of_processing cfg s jobId t r hr hst]
  · intro s jobId t r hr
    simp [markProcessing, hr, attemptsOf_storeSet]

/-- Witness for the amended C9 at concrete inputs: `markComplete` keeps
`attempts = 1` on a singleton store, and `markProcessing` increments it. -/
theorem attempts_monotone_unless_evicted_witness :
    (([("d1", { id := "d1", status := JobStatus.processing, createdAt := 0, updatedAt := 0, attempts := 1 })] : JobStore).map Prod.fst).Nodup ∧
    storeGet [("d1", { id := "d1", status := JobStatus.processing, createdAt := 0, updatedAt := 0, attempts := 1 })] "d1" =
      some { id := "d1", status := JobStatus.processing, createdAt := 0, updatedAt := 0, attempts := 1 } ∧
    (storeGet (applyOp ⟨1000, 3, 100⟩
        [("d1", { id := "d1", status := JobStatus.processing, createdAt := 0, updatedAt := 0, attempts := 1 })]
        (.complete "d1" 5)) "d1" =
      some { id := "d1", status := JobStatus.completed, createdAt := 0, updatedAt := 5, completedAt := some 5, attempts := 1 } →
      ({ id := "d1", status := JobStatus.processing, createdAt := 0, updatedAt := 0, attempts := 1 } : JobRecord).attempts ≤
      ({ id := "d1", status := JobStatus.completed, createdAt := 0, updatedAt := 5, completedAt := some 5, attempts := 1 } : JobRecord).attempts) ∧
    attemptsOf (createRecord [] "d2" 7) "d2" = some 1 ∧
    attemptsOf (markProcessing
        [("d1", { id := "d1", status := JobStatus.processing, createdAt := 0, updatedAt := 0, attempts := 1 })] "d1" 9) "d1" =
      some (1 + 1) :=
  ⟨by decide, rfl,
   fun h =>
     attempts_monotone_unless_evicted.1 ⟨1000, 3, 100⟩
       [("d1", { id := "d1", status := JobStatus.processing, createdAt := 0, updatedAt := 0, attempts := 1 })]
       (.complete "d1" 5) "d1"
       { id := "d1", status := JobStatus.processing, createdAt := 0, updatedAt := 0, attempts := 1 }
       { id := "d1", status := JobStatus.completed, createdAt := 0, updatedAt := 5, completedAt := some 5, attempts := 1 }
       (by decide) rfl h,
   attempts_monotone_unless_evicted.2.1 [] "d2" 7,
   attempts_monotone_unless_evicted.2.2.2.2.2
     [("d1", { id := "d1", status := JobStatus.processing, createdAt := 0, updatedAt := 0, attempts := 1 })] "d1" 9
     { id := "d1", status := JobStatus.processing, createdAt := 0, updatedAt := 0, attempts := 1 } rfl⟩

theorem mem_storeSet {s : JobStore} {jobId : String} {w : JobRecord}
    {p : String × JobRecord} (h : p ∈ storeSet s jobId w) : p ∈ s ∨ p = (jobId, w) := by
  induction s with
  | nil =>
    right
    simpa [storeSet] using h
  | cons q rest ih =>
    obtain ⟨k, v⟩ := q
    by_cases hk : k = jobId
    · have hs : storeSet ((k, v) :: rest) jobId w = (jobId, w) :: rest := by
        simp [storeSet, hk]
      rw [hs] at h
      rcases List.mem_cons.mp h with h | h
      · exact Or.inr h
      · exact Or.inl (List.mem_cons_of_mem _ h)
    · simp only [storeSet, if_neg hk] at h
      rcases List.mem_cons.mp h with h | h
      · exact Or.inl (h ▸ List.mem_cons_self _ _)
      · rcases ih h with h' | h'
        · exact Or.inl (List.mem_cons_of_mem _ h')
        · exact Or.inr h'

theorem no_pending_applyOp (cfg : IdempotencyConfig) (s : JobStore) (op : GuardOp)
    (hs : ∀ p ∈ s, p.2.status ≠ JobStatus.pending) :
    ∀ p ∈ applyOp cfg s op, p.2.status ≠ JobStatus.pending := by
  have hset : ∀ (jobId : String) (w : JobRecord), w.status ≠ JobStatus.pending →
      ∀ p ∈ storeSet s jobId w, p.2.status ≠ JobStatus.pending := by
    intro jobId w hw p hp
    rcases mem_storeSet hp with h | h
    · exact hs p h
    · rw [h]
      exact hw
  have hmp : ∀ (jobId : String) (t : Nat),
      ∀ p ∈ markProcessing s jobId t, p.2.status ≠ JobStatus.pending := by
    intro jobId t
    cases hg : storeGet s jobId with
    | none =>
      simp only [markProcessing, hg]
      exact hs
    | some rec =>
      simp only [markProcessing, hg]
      exact hset jobId _ (by simp)
  cases op with
  | isDup jobId t =>
    simp only [applyOp]
    rcases isDuplicate_snd_cases cfg s jobId t with hcase | ⟨hcase, _⟩ | hcase
    · rw [hcase]
      exact hs
    · rw [hcase]
      exact hset jobId _ (by simp)
    · rw [hcase]
      exact hmp jobId t
  | complete jobId t =>
    simp only [applyOp, markComplete]
    cases hg : storeGet s jobId with
    | none => exact hs
    | some rec => exact hset jobId _ (by simp)
  | fail jobId t e =>
    simp only [applyOp, markFailed]
    cases hg : storeGet s jobId with
    | none => exact hs
    | some rec => exact hset jobId _ (by simp)
  | sweep t =>
    intro p hp
    exact hs p (List.mem_of_mem_filter hp)

theorem no_pending_runOps (cfg : IdempotencyConfig) (ops : List GuardOp) :
    ∀ (s : JobStore), (∀ p ∈ s, p.2.status ≠ JobStatus.pending) →
    ∀ p ∈ runOps cfg s ops, p.2.status ≠ JobStatus.pending := by
  induction ops with
  | nil =>
    intro s hs
    exact hs
  | cons op ops ih =>
    intro s hs
    exact ih (applyOp cfg s op) (no_pending_applyOp cfg s op hs)

theorem getStats_pending_aux (s : JobStore) :
    ∀ st : JobStats, (∀ p ∈ s, p.2.status ≠ JobStatus.pending) →
    (s.foldl (fun st p => statTally st p.2) st).pending = st.pending := by
  induction s with
  | nil =>
    intro st _
    rfl
  | cons q rest ih =>
    intro st hs
    have hq : q.2.status ≠ JobStatus.pending := hs q (List.mem_cons_self _ _)
    have hrest : ∀ p ∈ rest, p.2.status ≠ JobStatus.pending :=
      fun p hp => hs p (List.mem_cons_of_mem _ hp)
    simp only [List.foldl_cons]
    rw [ih _ hrest]
    cases hst : q.2.status with
    | pending => exact absurd hst hq
    | processing => simp [statTally, hst]
    | completed => simp [statTally, hst]
    | failed => simp [statTally, hst]

/-- **C10.** Every record reachable through the guard's public operations has
status `'processing'`, `'completed'` or `'failed'`: `createRecord` writes
status `'processing'` (not `'pending'` as its doc comment says), no operation
ever assigns `'pending'`, so the pending branch at the end of `isDuplicate` is
unreachable from the guard's own stores and `getStats` always reports
`pending = 0` for a store populated only via the guard. -/
theorem guard_no_pending_reachable (cfg : IdempotencyConfig) (ops : List GuardOp)
    (id : String) (s : JobStore) (jobId : String) (t : Nat) :
    Option.all (fun r => r.status != JobStatus.pending) (storeGet (runOps cfg [] ops) id) = true ∧
    (getStats (runOps cfg [] ops)).pending = 0 ∧
    storeGet (createRecord s jobId t) jobId =
      some { id := jobId, status := .processing, createdAt := t, updatedAt := t,
             attempts := 1 } := by
  have hinv : ∀ p ∈ runOps cfg [] ops, p.2.status ≠ JobStatus.pending :=
    no_pending_runOps cfg ops [] (by intro p hp; cases hp)
  refine ⟨?_, ?_, storeGet_storeSet_self s jobId _⟩
  · cases hg : storeGet (runOps cfg [] ops) id with
    | none => rfl
    | some r =>
      have hr : r.status ≠ JobStatus.pending := hinv (id, r) (storeGet_mem hg)
      simpa [Option.all] using bne_iff_ne.mpr hr
  · exact getStats_pending_aux (runOps cfg [] ops) ⟨0, 0, 0, 0, 0⟩ hinv

-- ===========================================
-- Skill selector refinement
-- ===========================================

theorem evaluateTrigger_eq_spec (trigger : SkillTrigger) (context : AgentContext) :
    evaluateTrigger trigger context = triggerScoreSpec context trigger := by
  obtain ⟨ty, vals⟩ := trigger
  cases ty <;> rfl

theorem foldl_trigger_sum (context : AgentContext) (l : List SkillTrigger) :
    ∀ a : ℚ, l.foldl (fun score trigger => score + evaluateTrigger trigger context) a =
      a + (l.map (triggerScoreSpec context)).sum := by
  induction l with
  | nil =>
    intro a
    simp
  | cons x l ih =>
    intro a
    simp only [List.foldl_cons]
    rw [ih, List.map_cons, List.sum_cons, evaluateTrigger_eq_spec, add_assoc]

theorem evaluateSkillMatch_eq_spec (skill : Skill) (context : AgentContext) :
    evaluateSkillMatch skill context = matchScoreSpec context skill := by
  unfold evaluateSkillMatch matchScoreSpec
  rw [foldl_trigger_sum context skill.triggers 0, zero_add]

theorem foldl_matching_eq_filterMap (context : AgentContext) (l : List Skill) :
    ∀ acc : List (Skill × ℚ),
      l.foldl (fun acc skill =>
        let score := evaluateSkillMatch skill context
        if 0 < score then acc ++ [(skill, score * (skill.priority : ℚ))] else acc) acc =
      acc ++ l.filterMap (fun skill =>
        let score := evaluateSkillMatch skill context
        if 0 < score then some (skill, score * (skill.priority : ℚ)) else none) := by
  induction l with
  | nil =>
    intro acc
    simp
  | cons x l ih =>
    intro acc
    by_cases hx : 0 < evaluateSkillMatch x context
    · simp only [List.foldl_cons, List.filterMap_cons, if_pos hx, ih, List.append_assoc,
        List.singleton_append]
    · simp only [List.foldl_cons, List.filterMap_cons, if_neg hx, ih]

theorem filterMap_matching_eq_spec (context : AgentContext) (l : List Skill) :
    l.filterMap (fun skill =>
      let score := evaluateSkillMatch skill context
      if 0 < score then some (skill, score * (skill.priority : ℚ)) else none) =
    l.filterMap (fun skill =>
      let m := matchScoreSpec context skill
      if 0 < m then some (skill, m * (skill.priority : ℚ)) else none) := by
  induction l with
  | nil => rfl
  | cons x l ih =>
    simp only [List.filterMap_cons, ih, evaluateSkillMatch_eq_spec]

/-- **C6.** `selectSkills` returns exactly the descriptors computed by the
scoring pipeline the spec describes: score each skill as the sum over its
triggers of (2 for an event_type hit, 1 per matching label, 0.5 per matching
keyword, 0 for path_pattern); exclude skills whose score is not positive;
multiply the remaining scores by the skill's priority; sort descending by that
ranking score with ties keeping registry order; return the first `maxSkills`
descriptors. -/
theorem selectSkills_eq_spec (registry : List Skill) (context : AgentContext)
    (maxSkills : Nat) :
    selectSkills registry context maxSkills = selectSkillsSpec registry context maxSkills := by
  unfold selectSkills selectSkillsSpec
  rw [foldl_matching_eq_filterMap context registry [], List.nil_append,
    filterMap_matching_eq_spec context registry]

-- ===========================================
-- Skill content loading (C7)
-- ===========================================

theorem string_append_assoc (a b c : String) : a ++ b ++ c = a ++ (b ++ c) := by
  apply String.ext
  simp [String.data_append, List.append_assoc]

theorem string_append_empty (a : String) : a ++ "" = a := by
  apply String.ext
  simp [String.data_append]

/-- **C7.** `loadSkillContent` is total (it never throws) and returns the
header with the skill's name and description, followed by the primary SKILL.md
content — or the placeholder when the primary document cannot be read —
followed, only when the sibling examples.md is readable, by the labelled
Examples section. The absence of examples.md produces no error and no change
other than omitting that section: a store that agrees on the primary document
but lacks examples.md yields exactly the same output minus the section. -/
theorem loadSkillContent_decomposition (fileStore : String → Option String) (skill : Skill) :
    (loadSkillContent fileStore skill =
       headerOf skill ++ primaryOf fileStore skill ++ examplesSectionOf fileStore skill) ∧
    (fileStore (examplesPathOf skill) = none →
       loadSkillContent fileStore skill = headerOf skill ++ primaryOf fileStore skill) ∧
    (∀ (fs₂ : String → Option String) (ex : String),
       fs₂ (skillMdPathOf skill) = fileStore (skillMdPathOf skill) →
       fs₂ (examplesPathOf skill) = none →
       fileStore (examplesPathOf skill) = some ex →
       loadSkillContent fileStore skill =
         loadSkillContent fs₂ skill ++ "\n\n## Examples\n\n" ++ ex) ∧
    (fileStore (skillMdPathOf skill) = none →
       loadSkillContent fileStore skill =
         headerOf skill ++ "*SKILL.md not found*\n" ++ examplesSectionOf fileStore skill) := by
  refine ⟨?_, ?_, ?_, ?_⟩
  · cases hmd : fileStore (skillMdPathOf skill) <;>
      cases hex : fileStore (examplesPathOf skill) <;>
        (simp [loadSkillContent, headerOf, primaryOf, examplesSectionOf, hmd, hex,
          string_append_empty, string_append_assoc]
         try (apply String.ext; simp [String.data_append, List.append_assoc]))
  · intro hex
    cases hmd : fileStore (skillMdPathOf skill) <;>
      simp [loadSkillContent, headerOf, primaryOf, hmd, hex]
  · intro fs₂ ex hmd₂ hex₂ hex
    cases hmd : fileStore (skillMdPathOf skill) <;>
      simp [loadSkillContent, hmd, hex, hmd₂, hex₂, hmd ▸ hmd₂]
  · intro hmd
    cases hex : fileStore (examplesPathOf skill) <;>
      (simp [loadSkillContent, headerOf, examplesSectionOf, hmd, hex,
        string_append_empty, string_append_assoc]
       try (apply String.ext; simp [String.data_append, List.append_assoc]))

/-- Witness for C7 at a concrete skill and content stores: with both documents
present the Examples section is appended to exactly the output produced when
examples.md is absent. -/
theorem loadSkillContent_decomposition_witness :
    ((fun p => if p = "skills/p/SKILL.md" then some "MD"
               else if p = "skills/p/examples.md" then some "EX"
               else (none : Option String)) "skills/p/examples.md" = some "EX") ∧
    ((fun p => if p = "skills/p/SKILL.md" then some "MD"
               else (none : Option String)) "skills/p/examples.md" = none) ∧
    loadSkillContent
        (fun p => if p = "skills/p/SKILL.md" then some "MD"
                  else if p = "skills/p/examples.md" then some "EX"
                  else (none : Option String))
        { name := "s", description := "d", path := "p", triggers := [], priority := 1 } =
      loadSkillContent
        (fun p => if p = "skills/p/SKILL.md" then some "MD" else (none : Option String))
        { name := "s", description := "d", path := "p", triggers := [], priority := 1 } ++
      "\n\n## Examples\n\n" ++ "EX" :=
  ⟨by decide, by decide,
   (loadSkillContent_decomposition
      (fun p => if p = "skills/p/SKILL.md" then some "MD"
                else if p = "skills/p/examples.md" then some "EX"
                else (none : Option String))
      { name := "s", description := "d", path := "p", triggers := [], priority := 1 }).2.2.1
     (fun p => if p = "skills/p/SKILL.md" then some "MD" else (none : Option String))
     "EX" (by decide) (by decide) (by decide)⟩

-- ===========================================
-- Agent loop lemmas
-- ===========================================

theorem execToolCalls_steps_eq (toolReg : String → Option (String → Except String String)) :
    ∀ (tcs : List ToolCall) (messages : List ChatMessage) (steps : List String),
      (execToolCalls toolReg tcs messages steps).2 =
        steps ++ tcs.map (fun tc => "Executed tool: " ++ tc.name) := by
  intro tcs
  induction tcs with
  | nil =>
    intro messages steps
    simp [execToolCalls]
  | cons tc rest ih =>
    intro messages steps
    simp only [execToolCalls, ih, List.map_cons, List.append_assoc, List.singleton_append]

theorem mem_execToolCalls_mono (toolReg : String → Option (String → Except String String)) :
    ∀ (tcs : List ToolCall) (messages : List ChatMessage) (steps : List String)
      (m : ChatMessage), m ∈ messages → m ∈ (execToolCalls toolReg tcs messages steps).1 := by
  intro tcs
  induction tcs with
  | nil =>
    intro messages steps m hm
    exact hm
  | cons tc rest ih =>
    intro messages steps m hm
    exact ih _ _ m (List.mem_append_left _ hm)

theorem mem_execToolCalls_unknown (toolReg : String → Option (String → Except String String)) :
    ∀ (tcs : List ToolCall) (tc : ToolCall) (messages : List ChatMessage)
      (steps : List String), tc ∈ tcs → toolReg tc.name = none →
      ({ role := Role.tool, content := "Error: Unknown tool \"" ++ tc.name ++ "\"",
         tool_call_id := tc.id } : ChatMessage) ∈ (execToolCalls toolReg tcs messages steps).1 := by
  intro tcs
  induction tcs with
  | nil =>
    intro tc messages steps htc
    cases htc
  | cons hd rest ih =>
    intro tc messages steps htc hreg
    rcases List.mem_cons.mp htc with heq | hmem
    · subst heq
      show _ ∈ (execToolCalls toolReg rest _ _).1
      simp only [hreg]
      exact mem_execToolCalls_mono toolReg rest _ _ _
        (List.mem_append_right _ (List.mem_singleton.mpr rfl))
    · exact ih tc _ _ hmem hreg

theorem agentLoop_ok_of_total (env : AgentEnv) (sp : String)
    (h : ∀ sp' msgs, ∃ resp, env.callModel sp' msgs = .ok resp) :
    ∀ (fuel : Nat) (messages : List ChatMessage) (steps : List String),
      ∃ out, agentLoop env sp fuel messages steps = .ok out := by
  intro fuel
  induction fuel with
  | zero =>
    intro messages steps
    exact ⟨_, rfl⟩
  | succ fuel ih =>
    intro messages steps
    obtain ⟨resp, hresp⟩ := h sp messages
    simp only [agentLoop, hresp]
    split
    · exact ⟨_, rfl⟩
    · obtain ⟨out, hout⟩ :=
        ih (execToolCalls env.toolReg resp.toolCalls (messages ++ [assistantMessageOf resp]) steps).1
          (execToolCalls env.toolReg resp.toolCalls (messages ++ [assistantMessageOf resp]) steps).2
      rw [hout]
      exact ⟨_, rfl⟩

/-- **C1 counterexample.** In the stub variant of `runAgent` (runAgent.ts lines
339-429), a requested tool call whose name is not registered does not produce
an error-tagged tool-result turn: the loop throws `Unknown tool: bogus`, and
the run is aborted because of the unknown tool name after 1 of its 10
iterations, returning success = false. The environment's provider always
answers with one tool call named `bogus` and the registry resolves no name. -/
theorem runAgentStub_aborts_on_unknown_tool :
    runAgentStub envBogus =
      ({ success := false,
         completedSteps := ["Selected 0 skills", "Loaded skill content", "Executed tool: bogus"],
         error := some "Unknown tool: bogus" }, 1) := by
  rfl

/-- **C1 (amended).** In the OpenRouter variant of `runAgent` (runAgent.ts
lines 925-1048) the claim holds: for every tool call whose name is not a key
of the registry, the dispatch block appends an error-tagged tool-result turn
(`Error: Unknown tool "<name>"`, correlated to the call's id) and continues
through every remaining call, and a run whose provider never rejects always
ends with success = true and no error — an unknown tool name never aborts it.
In the stub variant, the unknown tool name instead raises `Unknown tool:
<name>`, which the top-level catch converts into success = false: the run is
aborted (see the counterexample). -/
theorem runAgent_unknown_tool_error_result :
    (∀ (toolReg : String → Option (String → Except String String)) (tcs : List ToolCall)
       (tc : ToolCall) (messages : List ChatMessage) (steps : List String),
       tc ∈ tcs → toolReg tc.name = none →
       ({ role := Role.tool, content := "Error: Unknown tool \"" ++ tc.name ++ "\"",
          tool_call_id := tc.id } : ChatMessage) ∈
         (execToolCalls toolReg tcs messages steps).1) ∧
    (∀ (toolReg : String → Option (String → Except String String)) (tcs : List ToolCall)
       (messages : List ChatMessage) (steps : List String),
       (execToolCalls toolReg tcs messages steps).2 =
         steps ++ tcs.map (fun tc => "Executed tool: " ++ tc.name)) ∧
    (∀ (env : AgentEnv) (skills : List Skill) (contents : List String),
       env.select = .ok skills → loadAllSkills env.load skills = .ok contents →
       (∀ sp msgs, ∃ resp, env.callModel sp msgs = .ok resp) →
       (runAgent env).1.success = true ∧ (runAgent env).1.error = none) := by
  refine ⟨?_, ?_, ?_⟩
  · intro toolReg tcs tc messages steps htc hreg
    exact mem_execToolCalls_unknown toolReg tcs tc messages steps htc hreg
  · intro toolReg tcs messages steps
    exact execToolCalls_steps_eq toolReg tcs messages steps
  · intro env skills contents hsel hload htotal
    obtain ⟨out, hout⟩ :=
      agentLoop_ok_of_total env (systemPromptOf contents) htotal MAX_ITERATIONS
        [{ role := .user, content := buildContextMessage env.context }]
        [selectedStep skills, "Loaded skill content"]
    obtain ⟨m, st, n, b⟩ := out
    simp [runAgent, hsel, hload, hout]

/-- Witness for the amended C1: `envBogus` requests the unregistered tool
`bogus` every iteration; the error-tagged turn for it is produced and the
OpenRouter run ends with success and no error. -/
theorem runAgent_unknown_tool_error_result_witness :
    bogusCall ∈ [bogusCall] ∧
    (fun _ : String => (none : Option (String → Except String String))) bogusCall.name = none ∧
    ({ role := Role.tool, content := "Error: Unknown tool \"" ++ bogusCall.name ++ "\"",
       tool_call_id := bogusCall.id } : ChatMessage) ∈
      (execToolCalls (fun _ => none) [bogusCall] [] []).1 ∧
    envBogus.select = .ok [] ∧
    loadAllSkills envBogus.load [] = .ok [] ∧
    ((runAgent envBogus).1.success = true ∧ (runAgent envBogus).1.error = none) :=
  ⟨List.mem_singleton.mpr rfl, rfl,
   runAgent_unknown_tool_error_result.1 (fun _ => none) [bogusCall] bogusCall [] []
     (List.mem_singleton.mpr rfl) rfl,
   rfl, rfl,
   runAgent_unknown_tool_error_result.2.2 envBogus [] [] rfl rfl
     (fun _ _ => ⟨toolUseResponse, rfl⟩)⟩

theorem agentLoop_exhausts (env : AgentEnv) (sp : String)
    (h : ∀ sp' msgs, ∃ resp, env.callModel sp' msgs = .ok resp ∧ resp.toolCalls ≠ []) :
    ∀ (fuel : Nat) (messages : List ChatMessage) (steps : List String),
      ∃ m st, agentLoop env sp fuel messages steps = .ok (m, st, fuel, false) := by
  intro fuel
  induction fuel with
  | zero =>
    intro messages steps
    exact ⟨messages, steps, rfl⟩
  | succ fuel ih =>
    intro messages steps
    obtain ⟨resp, hresp, htc⟩ := h sp messages
    have hne : resp.toolCalls.isEmpty = false := by
      cases hl : resp.toolCalls with
      | nil => exact absurd hl htc
      | cons a l => rfl
    obtain ⟨m, st, hout⟩ :=
      ih (execToolCalls env.toolReg resp.toolCalls (messages ++ [assistantMessageOf resp]) steps).1
        (execToolCalls env.toolReg resp.toolCalls (messages ++ [assistantMessageOf resp]) steps).2
    refine ⟨m, st, ?_⟩
    simp [agentLoop, hresp, hne, hout]

/-- **C2 counterexample.** The claim quantifies over both `runAgent` variants
(its cited lines cover the stub loop at runAgent.ts 369-420) and over every
provider behavior requesting at least one tool call per response. `envBogus`
is such a behavior — every response carries the call `bogus` — yet the stub
variant executes 1 iteration instead of its `MAX_ITERATIONS = 10` and returns
success = false: the unknown-tool throw ends the run early. -/
theorem runAgentStub_stops_before_cap :
    (runAgentStub envBogus).2 = 1 ∧ (runAgentStub envBogus).1.success = false ∧
    MAX_ITERATIONS_STUB = 10 :=
  ⟨rfl, rfl, rfl⟩

/-- **C2 (amended).** In the OpenRouter variant of `runAgent`, for every
provider behavior in which each response requests at least one tool call (so
no natural stop occurs) and every tool dispatch is handled internally, the
loop executes exactly `MAX_ITERATIONS` (15) iterations — not fewer and not
more — and `runAgent` returns success = true with `Max iterations reached`
recorded in completedSteps. In the stub variant this holds only when every
requested tool is registered and succeeds; an unknown or throwing tool ends
the run early with success = false (see the counterexample). -/
theorem runAgent_budget_exhaustion :
    ∀ (env : AgentEnv) (skills : List Skill) (contents : List String),
      env.select = .ok skills → loadAllSkills env.load skills = .ok contents →
      (∀ sp msgs, ∃ resp, env.callModel sp msgs = .ok resp ∧ resp.toolCalls ≠ []) →
      (runAgent env).2 = MAX_ITERATIONS ∧
      (runAgent env).1.success = true ∧
      "Max iterations reached" ∈ (runAgent env).1.completedSteps := by
  intro env skills contents hsel hload htotal
  obtain ⟨m, st, hout⟩ :=
    agentLoop_exhausts env (systemPromptOf contents) htotal MAX_ITERATIONS
      [{ role := .user, content := buildContextMessage env.context }]
      [selectedStep skills, "Loaded skill content"]
  simp [runAgent, hsel, hload, hout]

/-- Witness for the amended C2: `envBogus` always requests one tool call; the
OpenRouter run executes all 15 iterations and reports the exhausted budget. -/
theorem runAgent_budget_exhaustion_witness :
    envBogus.select = .ok [] ∧ loadAllSkills envBogus.load [] = .ok [] ∧
    ((runAgent envBogus).2 = MAX_ITERATIONS ∧ (runAgent envBogus).1.success = true ∧
     "Max iterations reached" ∈ (runAgent envBogus).1.completedSteps) :=
  ⟨rfl, rfl,
   runAgent_budget_exhaustion envBogus [] [] rfl rfl
     (fun _ _ => ⟨toolUseResponse, rfl, by decide⟩)⟩

theorem execToolCallsStub_steps (toolReg : String → Option (String → Except String String)) :
    ∀ (tcs : List ToolCall) (messages : List ChatMessage) (steps : List String),
      (∀ e st, execToolCallsStub toolReg tcs messages steps = .error (e, st) →
        ∃ t, st = steps ++ t) ∧
      (∀ out, execToolCallsStub toolReg tcs messages steps = .ok out →
        ∃ t, out.2 = steps ++ t) := by
  intro tcs
  induction tcs with
  | nil =>
    intro messages steps
    refine ⟨?_, ?_⟩
    · intro e st h
      simp [execToolCallsStub] at h
    · intro out h
      simp only [execToolCallsStub] at h
      injection h with h
      exact ⟨[], by rw [← h, List.append_nil]⟩
  | cons tc rest ih =>
    intro messages steps
    cases hreg : toolReg tc.name with
    | none =>
      refine ⟨?_, ?_⟩
      · intro e st h
        simp only [execToolCallsStub, hreg] at h
        injection h with h
        exact ⟨["Executed tool: " ++ tc.name], (congrArg Prod.snd h).symm⟩
      · intro out h
        simp [execToolCallsStub, hreg] at h
    | some f =>
      cases hf : f tc.input with
      | error e' =>
        refine ⟨?_, ?_⟩
        · intro e st h
          simp only [execToolCallsStub, hreg, hf] at h
          injection h with h
          exact ⟨["Executed tool: " ++ tc.name], (congrArg Prod.snd h).symm⟩
        · intro out h
          simp [execToolCallsStub, hreg, hf] at h
      | ok r =>
        refine ⟨?_, ?_⟩
        · intro e st h
          simp only [execToolCallsStub, hreg, hf] at h
          obtain ⟨t, ht⟩ := (ih _ (steps ++ ["Executed tool: " ++ tc.name])).1 e st h
          exact ⟨("Executed tool: " ++ tc.name) :: t, by rw [ht, List.append_assoc]; rfl⟩
        · intro out h
          simp only [execToolCallsStub, hreg, hf] at h
          obtain ⟨t, ht⟩ := (ih _ (steps ++ ["Executed tool: " ++ tc.name])).2 out h
          exact ⟨("Executed tool: " ++ tc.name) :: t, by rw [ht, List.append_assoc]; rfl⟩

theorem agentLoop_error_steps (env : AgentEnv) (sp : String) :
    ∀ (fuel : Nat) (messages : List ChatMessage) (steps : List String) (e : String)
      (st : List String) (n : Nat),
      agentLoop env sp fuel messages steps = .error (e, st, n) → ∃ t, st = steps ++ t := by
  intro fuel
  induction fuel with
  | zero =>
    intro m s e st n h
    simp [agentLoop] at h
  | succ fuel ih =>
    intro m s e st n h
    cases hresp : env.callModel sp m with
    | error e' =>
      simp only [agentLoop, hresp, Except.error.injEq, Prod.mk.injEq] at h
      exact ⟨[], by rw [← h.2.1, List.append_nil]⟩
    | ok resp =>
      simp only [agentLoop, hresp] at h
      split at h
      · cases h
      · rw [execToolCalls_steps_eq] at h
        cases hrec : agentLoop env sp fuel
            (execToolCalls env.toolReg resp.toolCalls (m ++ [assistantMessageOf resp]) s).1
            (s ++ resp.toolCalls.map (fun tc => "Executed tool: " ++ tc.name)) with
        | error q =>
          obtain ⟨e₃, st₃, n₃⟩ := q
          rw [hrec] at h
          simp only [Except.error.injEq, Prod.mk.injEq] at h
          obtain ⟨t, ht⟩ := ih _ _ _ _ _ hrec
          refine ⟨resp.toolCalls.map (fun tc => "Executed tool: " ++ tc.name) ++ t, ?_⟩
          rw [← h.2.1, ht, List.append_assoc]
        | ok q =>
          obtain ⟨m₃, st₃, n₃, b₃⟩ := q
          rw [hrec] at h
          cases h

theorem agentLoopStub_error_steps (env : AgentEnv) (sp : String) :
    ∀ (fuel : Nat) (messages : List ChatMessage) (steps : List String) (e : String)
      (st : List String) (n : Nat),
      agentLoopStub env sp fuel messages steps = .error (e, st, n) → ∃ t, st = steps ++ t := by
  intro fuel
  induction fuel with
  | zero =>
    intro m s e st n h
    simp [agentLoopStub] at h
  | succ fuel ih =>
    intro m s e st n h
    cases hresp : env.callModel sp m with
    | error e' =>
      simp only [agentLoopStub, hresp, Except.error.injEq, Prod.mk.injEq] at h
      exact ⟨[], by rw [← h.2.1, List.append_nil]⟩
    | ok resp =>
      simp only [agentLoopStub, hresp] at h
      split at h
      · cases h
      · split at h
        · rename_i e₂ st₂ hexec
          simp only [Except.error.injEq, Prod.mk.injEq] at h
          obtain ⟨t, ht⟩ :=
            (execToolCallsStub_steps env.toolReg resp.toolCalls _ s).1 e₂ st₂ hexec
          exact ⟨t, by rw [← h.2.1, ht]⟩
        · rename_i ms st₂ hexec
          split at h
          · rename_i e₃ st₃ n₃ hrec
            simp only [Except.error.injEq, Prod.mk.injEq] at h
            obtain ⟨t₀, ht₀⟩ :=
              (execToolCallsStub_steps env.toolReg resp.toolCalls _ s).2 (ms, st₂) hexec
            obtain ⟨t₁, ht₁⟩ := ih _ _ _ _ _ hrec
            refine ⟨t₀ ++ t₁, ?_⟩
            rw [← h.2.1, ht₁]
            simp only at ht₀
            rw [ht₀, List.append_assoc]
          · cases h

/-- **C8.** Both `runAgent` variants catch every error thrown by skill
selection, skill-content loading or the model-provider call and convert it
into `{success: false, error: <message>}`, returning the step descriptions
accumulated before the error; no exception escapes (totality of the Lean
functions). If selection throws, no steps were recorded yet; if loading
throws, the selection step is; if the loop throws, the returned steps extend
the two pre-loop steps with whatever the loop recorded before the error. -/
theorem runAgent_top_level_catch :
    ∀ (env : AgentEnv) (e : String),
      (env.select = .error e →
        runAgent env = ({ success := false, completedSteps := [], error := some e }, 0) ∧
        runAgentStub env = ({ success := false, completedSteps := [], error := some e }, 0)) ∧
      (∀ skills, env.select = .ok skills → loadAllSkills env.load skills = .error e →
        runAgent env =
          ({ success := false, completedSteps := [selectedStep skills], error := some e }, 0) ∧
        runAgentStub env =
          ({ success := false, completedSteps := [selectedStep skills], error := some e }, 0)) ∧
      (∀ skills contents st n, env.select = .ok skills →
        loadAllSkills env.load skills = .ok contents →
        agentLoop env (systemPromptOf contents) MAX_ITERATIONS
          [{ role := .user, content := buildContextMessage env.context }]
          [selectedStep skills, "Loaded skill content"] = .error (e, st, n) →
        runAgent env = ({ success := false, completedSteps := st, error := some e }, n) ∧
        ∃ t, st = [selectedStep skills, "Loaded skill content"] ++ t) ∧
      (∀ skills contents st n, env.select = .ok skills →
        loadAllSkills env.load skills = .ok contents →
        agentLoopStub env (systemPromptOf contents) MAX_ITERATIONS_STUB
          [{ role := .user, content := buildContextMessage env.context }]
          [selectedStep skills, "Loaded skill content"] = .error (e, st, n) →
        runAgentStub env = ({ success := false, completedSteps := st, error := some e }, n) ∧
        ∃ t, st = [selectedStep skills, "Loaded skill content"] ++ t) := by
  intro env e
  refine ⟨?_, ?_, ?_, ?_⟩
  · intro h
    constructor <;> simp [runAgent, runAgentStub, h]
  · intro skills hsel hload
    constructor <;> simp [runAgent, runAgentStub, hsel, hload]
  · intro skills contents st n hsel hload hloop
    refine ⟨?_, agentLoop_error_steps env _ _ _ _ _ _ _ hloop⟩
    simp [runAgent, hsel, hload, hloop]
  · intro skills contents st n hsel hload hloop
    refine ⟨?_, agentLoopStub_error_steps env _ _ _ _ _ _ _ hloop⟩
    simp [runAgentStub, hsel, hload, hloop]

/-- Witness for C8: `envBoom`'s provider rejects with `boom` on the first
iteration; the run returns success = false with the two pre-loop steps. -/
theorem runAgent_top_level_catch_witness :
    envBoom.select = .ok [] ∧
    loadAllSkills envBoom.load [] = .ok [] ∧
    agentLoop envBoom (systemPromptOf []) MAX_ITERATIONS
      [{ role := .user, content := buildContextMessage envBoom.context }]
      [selectedStep [], "Loaded skill content"] =
        .error ("boom", [selectedStep [], "Loaded skill content"], 1) ∧
    (runAgent envBoom =
       ({ success := false,
          completedSteps := [selectedStep [], "Loaded skill content"],
          error := some "boom" }, 1) ∧
     ∃ t, [selectedStep ([] : List Skill), "Loaded skill content"] =
       [selectedStep ([] : List Skill), "Loaded skill content"] ++ t) :=
  ⟨rfl, rfl, rfl,
   (runAgent_top_level_catch envBoom "boom").2.2.1 [] []
     [selectedStep [], "Loaded skill content"] 1 rfl rfl rfl⟩
